import Mathlib

/-
Shallow embedding of the docker-hadoop-ml linear-regression core
(src/lr/lr.py and src/lr/lr_norm.py).

Numbers are modelled as exact reals (ℝ): Python floats are idealized as
real arithmetic, as the specification's own tolerance language suggests.
A raw input token is either a numeric literal (the value float() returns)
or a non-numeric string (on which float() raises ValueError).

In-place numpy mutation (`self.x_t_x += ...`, and the `x_t_x += ...`
inside the solver of lr.py) is embedded by explicit state passing: each
stateful operation returns the updated array values, and an operation
that raises returns the state as of the raise site together with the
exception, so that partial mutation before a raise would be observable.

The numpy linear-algebra routines called by the code are external
library code; they are modelled by their documented contracts:
`np.linalg.cholesky` returns the lower-triangular Cholesky factor of a
(symmetric) positive-definite matrix and raises LinAlgError otherwise;
`np.linalg.solve A b` returns the unique solution of `A x = b` when `A`
is invertible and raises LinAlgError otherwise.
-/

open Matrix

/-- One raw comma-separated token of an input line: either numeric (with the
real value `float()` would produce) or non-numeric. -/
inductive Token
  | num (v : ℝ)
  | nonNumeric

/-- Models the list comprehension `[float(e) for e in line.strip().split(",")]`
(lr.py line 86, lr_norm.py line 19): every token is converted, and a single
non-numeric token makes the whole conversion raise (result `none`). -/
def parseFloats : List Token → Option (List ℝ)
  | [] => some []
  | Token.num v :: ts => (parseFloats ts).map (fun l => v :: l)
  | Token.nonNumeric :: _ => none

/-- Models `extract_variables` (lr.py lines 82-88, lr_norm.py lines 15-21):
parse all tokens, then split as `y, features = data[0], data[1:]`.
`str.split` always returns at least one token, so the empty-list case is
unreachable from real input; it is mapped to a parse failure. -/
def extract_variables (line : List Token) : Option (ℝ × List ℝ) :=
  match parseFloats line with
  | none => none
  | some [] => none
  | some (y :: features) => some (y, features)

/-- The sufficient statistic held by an accumulator: the fields
`self.x_t_x`, `self.x_t_y`, `self.counts` initialized in
`LinearRegressionTS.__init__` (lr.py lines 75-80) and
`LinearRegression.__init__` (lr_norm.py lines 7-13). -/
@[ext]
structure LRState (n : ℕ) where
  x_t_x : Matrix (Fin n) (Fin n) ℝ
  x_t_y : Fin n → ℝ
  counts : ℕ

/-- The freshly initialized statistic: `np.zeros([n, n])`, `np.zeros(n)`, `0`. -/
def initState (n : ℕ) : LRState n := ⟨0, 0, 0⟩

/-- Models Python's `int(self.BIAS)`. -/
def intOfBool (B : Bool) : ℕ := if B then 1 else 0

/-- The effective dimension `n = self.DIMENSION + int(self.BIAS)`. -/
def effDim (D : ℕ) (B : Bool) : ℕ := D + intOfBool B

/-- Models `if self.BIAS: features.append(1.0)`
(lr.py lines 95-96, lr_norm.py lines 28-29). -/
def appendBias (B : Bool) (features : List ℝ) : List ℝ :=
  if B then features ++ [1] else features

/-- Models `np.array(features)` together with indexing: the fixed-length
vector holding the entries of the list, in order. -/
def vecOfList {n : ℕ} (l : List ℝ) (h : l.length = n) : Fin n → ℝ :=
  fun i => l.get (Fin.cast h.symm i)

/-- Models `np.outer(x, x)`: the matrix with entries `x i * x j`. -/
def outer {n : ℕ} (x : Fin n → ℝ) : Matrix (Fin n) (Fin n) ℝ :=
  Matrix.of fun i j => x i * x j

/-- Exceptions that can escape `LinearRegressionTS.mapper_lr` (lr.py):
the ValueError raised by `float()` on a non-numeric token, and the
structured `DimensionMismatchError(expected, observed)` of lr.py
lines 31-38, which stores both values as fields (`self.exp`, `self.obs`). -/
inductive TSError
  | parseFailure
  | dimMismatch (expected observed : ℕ)

/-- Exceptions that can escape `LinearRegression.process_line` (lr_norm.py):
the ValueError raised by `float()` on a non-numeric token, and the plain
`ValueError(f"Expected dimension {D}, but got {o}")` of lr_norm.py line 27,
which carries only the interpolated message string. -/
inductive NormError
  | parseFailure
  | valueError (msg : String)

/-- The structured dimension fields an exception carries, if any.
`DimensionMismatchError` stores `expected` and `observed` as attributes. -/
def TSError.dimensionFields : TSError → Option (ℕ × ℕ)
  | TSError.dimMismatch e o => some (e, o)
  | _ => none

/-- The structured dimension fields an lr_norm exception carries. A plain
`ValueError` holds only its message string, so no constructor of
`NormError` carries dimension fields. -/
def NormError.dimensionFields : NormError → Option (ℕ × ℕ)
  | _ => none

namespace LinearRegressionTS

/-- Class attribute `DIMENSION = 8` of lr.py line 72. -/
def DIMENSION : ℕ := 8

/-- Class attribute `BIAS = True` of lr.py line 73. -/
def BIAS : Bool := true

/-- Models `mapper_lr` (lr.py lines 90-100), with the class attributes
`DIMENSION`/`BIAS` as parameters `D`/`B`. The result is the state of
`self` after the call together with the exception raised, if any; both
raise sites precede the three `+=` updates, exactly as in the source. -/
def mapper_lr (D : ℕ) (B : Bool) (st : LRState (effDim D B)) (line : List Token) :
    LRState (effDim D B) × Option TSError :=
  match extract_variables line with
  | none => (st, some TSError.parseFailure)
  | some (y, features) =>
    if hd : features.length = D then
      let x : Fin (effDim D B) → ℝ :=
        vecOfList (appendBias B features)
          (by cases B <;> simp [appendBias, effDim, intOfBool, hd])
      (⟨st.x_t_x + outer x, st.x_t_y + y • x, st.counts + 1⟩, none)
    else
      (st, some (TSError.dimMismatch D features.length))

/-- One tagged value emitted by `mapper_lr_final` (lr.py lines 102-106)
and consumed by the reducer. -/
inductive MapperValue (n : ℕ)
  | xtx (m : Matrix (Fin n) (Fin n) ℝ)
  | xty (v : Fin n → ℝ)
  | cnts (c : ℕ)

/-- Models `mapper_lr_final` (lr.py lines 102-106): a finished partition
emits its current statistic, unchanged, as three tagged values. -/
def mapper_lr_final {n : ℕ} (st : LRState n) : List (MapperValue n) :=
  [MapperValue.xtx st.x_t_x, MapperValue.xty st.x_t_y, MapperValue.cnts st.counts]

/-- One iteration of the `for val in values` loop of `reducer_lr`
(lr.py lines 114-120): add the tagged contribution to the running sums. -/
def reducer_step {n : ℕ} (acc : LRState n) : MapperValue n → LRState n
  | MapperValue.xtx m => ⟨acc.x_t_x + m, acc.x_t_y, acc.counts⟩
  | MapperValue.xty v => ⟨acc.x_t_x, acc.x_t_y + v, acc.counts⟩
  | MapperValue.cnts c => ⟨acc.x_t_x, acc.x_t_y, acc.counts + c⟩

/-- The aggregation phase of `reducer_lr` (lr.py lines 110-120): fold all
tagged values into sums that start from `np.zeros`. -/
def reducer_aggregate (n : ℕ) (values : List (MapperValue n)) : LRState n :=
  values.foldl reducer_step (initState n)

end LinearRegressionTS

/-- The element-wise merge of two sufficient statistics, as the reducer's
loop applies it (lr.py lines 114-120): matrices, vectors and counts are
summed componentwise. This is the `merge` operation of the StatMerger
contract realized by `reducer_lr`. -/
def mergeStat {n : ℕ} (a b : LRState n) : LRState n :=
  ⟨a.x_t_x + b.x_t_x, a.x_t_y + b.x_t_y, a.counts + b.counts⟩

namespace LinearRegression

/-- Models `process_line` (lr_norm.py lines 23-33), with the constructor
arguments `dimension`/`bias` as parameters `D`/`B`. The result is the
state of `self` after the call together with the exception raised, if
any; both raise sites precede the three `+=` updates, exactly as in the
source. The dimension check raises a plain `ValueError` whose message
interpolates the two counts (lr_norm.py line 27). -/
def process_line (D : ℕ) (B : Bool) (st : LRState (effDim D B)) (line : List Token) :
    LRState (effDim D B) × Option NormError :=
  match extract_variables line with
  | none => (st, some NormError.parseFailure)
  | some (y, features) =>
    if hd : features.length = D then
      let x : Fin (effDim D B) → ℝ :=
        vecOfList (appendBias B features)
          (by cases B <;> simp [appendBias, effDim, intOfBool, hd])
      (⟨st.x_t_x + outer x, st.x_t_y + y • x, st.counts + 1⟩, none)
    else
      (st, some (NormError.valueError
        ("Expected dimension " ++ toString D ++ ", but got " ++ toString features.length)))

end LinearRegression

/-- Runs a per-record accumulator over a list of records, stopping at the
first raised exception, as both `MRJob` and `LinearRegression.run` do. The
returned state is the accumulator state when processing stopped. -/
def accumulateAll {σ ε : Type} (f : σ → List Token → σ × Option ε) :
    σ → List (List Token) → σ × Option ε
  | st, [] => (st, none)
  | st, l :: ls =>
    match f st l with
    | (st', none) => accumulateAll f st' ls
    | (st', some e) => (st', some e)

/-! ### The numpy linear-algebra routines, modelled by contract -/

/-- A matrix is lower triangular when every entry above the diagonal is 0. -/
def lowerTriangular {m : ℕ} (L : Matrix (Fin m) (Fin m) ℝ) : Prop :=
  ∀ i j : Fin m, i < j → L i j = 0

open Classical in
/-- Contract model of `np.linalg.cholesky`: it returns a lower-triangular
invertible factor `L` with `L * Lᵀ = M` when one exists — for the symmetric
matrices this program feeds it, that is exactly when `M` is positive
definite (`npCholesky_eq_none_iff` below) — and raises `LinAlgError`
("Matrix is not positive definite"), modelled as `none`, otherwise. -/
noncomputable def npCholesky {m : ℕ} (M : Matrix (Fin m) (Fin m) ℝ) :
    Option (Matrix (Fin m) (Fin m) ℝ) :=
  if h : ∃ L : Matrix (Fin m) (Fin m) ℝ,
      lowerTriangular L ∧ IsUnit L.det ∧ L * Lᵀ = M then
    some h.choose
  else none

open Classical in
/-- Contract model of `np.linalg.solve`: on an invertible matrix `A` it
returns the unique solution of `A x = b`; on a singular matrix it raises
`LinAlgError`, modelled as `none`. -/
noncomputable def npSolve {m : ℕ} (A : Matrix (Fin m) (Fin m) ℝ) (b : Fin m → ℝ) :
    Option (Fin m → ℝ) :=
  if IsUnit A.det then some (A⁻¹.mulVec b) else none

/-- The shared Cholesky-then-two-triangular-solves sequence
(`L = np.linalg.cholesky M; z = np.linalg.solve L b; np.linalg.solve L.T z`),
with the first raised LinAlgError propagating to the caller. -/
noncomputable def cholSolve {m : ℕ} (M : Matrix (Fin m) (Fin m) ℝ) (b : Fin m → ℝ) :
    Option (Fin m → ℝ) :=
  match npCholesky M with
  | none => none
  | some L =>
    match npSolve L b with
    | none => none
    | some z => npSolve Lᵀ z

/-- The default value of the `regularization` keyword argument of
`cholesky_solution_linear_regression` (lr.py line 10). -/
def defaultRegularization : ℝ := 1e-10

/-- Models `cholesky_solution_linear_regression` (lr.py lines 10-29).
The numpy statement `x_t_x += np.eye(m) * regularization` adds the scaled
identity to the caller's array **in place**, so the function's observable
result is the mutated input matrix (first component) together with the
returned coefficients, or `none` when a LinAlgError escapes. -/
noncomputable def cholesky_solution_linear_regression {m : ℕ}
    (x_t_x : Matrix (Fin m) (Fin m) ℝ) (x_t_y : Fin m → ℝ) (regularization : ℝ) :
    Matrix (Fin m) (Fin m) ℝ × Option (Fin m → ℝ) :=
  let damped := x_t_x + regularization • (1 : Matrix (Fin m) (Fin m) ℝ)
  (damped,
    match npCholesky damped with
    | none => none
    | some L =>
      match npSolve L x_t_y with
      | none => none
      | some z => npSolve Lᵀ z)

namespace LinearRegression

/-- Models the method `cholesky_solution_linear_regression`
(lr_norm.py lines 35-40): it factors `self.x_t_x` directly —
no damping term is added — and then performs the two triangular solves. -/
noncomputable def cholesky_solution_linear_regression {n : ℕ} (st : LRState n) :
    Option (Fin n → ℝ) :=
  match npCholesky st.x_t_x with
  | none => none
  | some L =>
    match npSolve L st.x_t_y with
    | none => none
    | some z => npSolve Lᵀ z

end LinearRegression

namespace LinearRegressionTS

/-- Models `reducer_lr` (lr.py lines 108-122): aggregate all tagged mapper
outputs and solve by `cholesky_solution_linear_regression` with the default
regularization. `none` is the LinAlgError escaping the reducer. -/
noncomputable def reducer_lr (n : ℕ) (values : List (MapperValue n)) :
    Option (Fin n → ℝ) :=
  let agg := reducer_aggregate n values
  (cholesky_solution_linear_regression agg.x_t_x agg.x_t_y defaultRegularization).2

end LinearRegressionTS

/-- The observable outcome of one end-to-end run of either entry point:
an accumulation-phase exception, a LinAlgError from the solve phase, or a
coefficient vector. -/
inductive RunOutcome (ε : Type) (n : ℕ)
  | accFailure (e : ε)
  | solveFailure
  | solved (theta : Fin n → ℝ)

/-- The outcome of the solve phase viewed as a `RunOutcome`. -/
def solveOutcome {ε : Type} {n : ℕ} : Option (Fin n → ℝ) → RunOutcome ε n
  | none => RunOutcome.solveFailure
  | some theta => RunOutcome.solved theta

namespace LinearRegressionTS

/-- One single-partition run of the map-reduce job (lr.py lines 124-128):
all lines go through one mapper, its final emissions through the reducer. -/
noncomputable def runJob (D : ℕ) (B : Bool) (lines : List (List Token)) :
    RunOutcome TSError (effDim D B) :=
  match accumulateAll (mapper_lr D B) (initState (effDim D B)) lines with
  | (_, some e) => RunOutcome.accFailure e
  | (st, none) => solveOutcome (reducer_lr (effDim D B) (mapper_lr_final st))

end LinearRegressionTS

namespace LinearRegression

/-- Models the method `run` (lr_norm.py lines 42-46): process every line,
then solve. -/
noncomputable def runFile (D : ℕ) (B : Bool) (lines : List (List Token)) :
    RunOutcome NormError (effDim D B) :=
  match accumulateAll (process_line D B) (initState (effDim D B)) lines with
  | (_, some e) => RunOutcome.accFailure e
  | (st, none) => solveOutcome (cholesky_solution_linear_regression st)

end LinearRegression

/-- Outcome agreement between the two entry points: both compute the same
coefficient vector, or both stop with an accumulation error, or both fail
in the solve. -/
def sameOutcome {n : ℕ} : RunOutcome TSError n → RunOutcome NormError n → Prop
  | RunOutcome.solved a, RunOutcome.solved b => a = b
  | RunOutcome.accFailure _, RunOutcome.accFailure _ => True
  | RunOutcome.solveFailure, RunOutcome.solveFailure => True
  | _, _ => False

/-- The lr_norm exception corresponding to each lr.py mapper exception:
parse failures coincide, and a dimension mismatch surfaces in lr_norm as
the ValueError with the interpolated message. -/
def errToNorm : TSError → NormError
  | TSError.parseFailure => NormError.parseFailure
  | TSError.dimMismatch e o =>
    NormError.valueError ("Expected dimension " ++ toString e ++ ", but got " ++ toString o)

/-! ### Accumulation-layer lemmas -/

/-- The two accumulators perform identical successful updates and reject
identical records; only the exception representation differs. -/
theorem process_line_eq_mapper_lr (D : ℕ) (B : Bool) (st : LRState (effDim D B))
    (line : List Token) :
    LinearRegression.process_line D B st line =
      ((LinearRegressionTS.mapper_lr D B st line).1,
        ((LinearRegressionTS.mapper_lr D B st line).2).map errToNorm) := by
  unfold LinearRegression.process_line LinearRegressionTS.mapper_lr
  cases hx : extract_variables line with
  | none => simp [errToNorm]
  | some p =>
    obtain ⟨y, features⟩ := p
    by_cases hd : features.length = D
    · simp [hd]
    · simp [hd, errToNorm]

/-- Lifting `process_line_eq_mapper_lr` to whole runs of the accumulator. -/
theorem accumulateAll_process_eq (D : ℕ) (B : Bool) (st : LRState (effDim D B))
    (lines : List (List Token)) :
    accumulateAll (LinearRegression.process_line D B) st lines =
      ((accumulateAll (LinearRegressionTS.mapper_lr D B) st lines).1,
       ((accumulateAll (LinearRegressionTS.mapper_lr D B) st lines).2).map errToNorm) := by
  induction lines generalizing st with
  | nil => rfl
  | cons l ls ih =>
    rw [accumulateAll, accumulateAll, process_line_eq_mapper_lr]
    cases hm : LinearRegressionTS.mapper_lr D B st l with
    | mk st' oe =>
      cases oe with
      | none => simpa using ih st'
      | some e => simp

/-- Aggregating the three tagged values one finished mapper emits
reconstructs exactly that mapper's statistic. -/
theorem reducer_aggregate_final {n : ℕ} (st : LRState n) :
    LinearRegressionTS.reducer_aggregate n (LinearRegressionTS.mapper_lr_final st) = st := by
  refine LRState.ext ?_ ?_ ?_ <;>
    simp [LinearRegressionTS.reducer_aggregate, LinearRegressionTS.mapper_lr_final,
      LinearRegressionTS.reducer_step, initState]

/-! ### Claims about accumulation -/

/-- C1: for every record with label `y` and feature list of length `d`,
`mapper_lr` / `process_line` first appends the constant `1.0` when bias is
configured, giving the effective vector `x`, and then updates the statistic
exactly by `crossProductMatrix += outer(x, x)`, `crossProductVector += y*x`,
`observationCount += 1`, leaving no other state changed. -/
theorem accumulate_updates_statistic (D : ℕ) (B : Bool) (st : LRState (effDim D B))
    (line : List Token) (y : ℝ) (features : List ℝ)
    (hparse : extract_variables line = some (y, features))
    (hd : features.length = D) :
    ∃ hlen : (appendBias B features).length = effDim D B,
      LinearRegressionTS.mapper_lr D B st line =
        (⟨st.x_t_x + outer (vecOfList (appendBias B features) hlen),
          st.x_t_y + y • vecOfList (appendBias B features) hlen,
          st.counts + 1⟩, none) ∧
      LinearRegression.process_line D B st line =
        (⟨st.x_t_x + outer (vecOfList (appendBias B features) hlen),
          st.x_t_y + y • vecOfList (appendBias B features) hlen,
          st.counts + 1⟩, none) ∧
      (B = true → appendBias B features = features ++ [1]) := by
  refine ⟨by cases B <;> simp [appendBias, effDim, intOfBool, hd], ?_, ?_, ?_⟩
  · unfold LinearRegressionTS.mapper_lr
    rw [hparse]
    simp [hd]
  · unfold LinearRegression.process_line
    rw [hparse]
    simp [hd]
  · intro hB
    simp [appendBias, hB]

/-- Witness for C1 at the concrete record `2,3` with `d = 1` and bias. -/
theorem accumulate_updates_statistic_witness :
    ∃ hlen : (appendBias true [(3 : ℝ)]).length = effDim 1 true,
      LinearRegressionTS.mapper_lr 1 true (initState (effDim 1 true))
          [Token.num 2, Token.num 3] =
        (⟨(initState (effDim 1 true)).x_t_x +
            outer (vecOfList (appendBias true [(3 : ℝ)]) hlen),
          (initState (effDim 1 true)).x_t_y +
            (2 : ℝ) • vecOfList (appendBias true [(3 : ℝ)]) hlen,
          (initState (effDim 1 true)).counts + 1⟩, none) ∧
      LinearRegression.process_line 1 true (initState (effDim 1 true))
          [Token.num 2, Token.num 3] =
        (⟨(initState (effDim 1 true)).x_t_x +
            outer (vecOfList (appendBias true [(3 : ℝ)]) hlen),
          (initState (effDim 1 true)).x_t_y +
            (2 : ℝ) • vecOfList (appendBias true [(3 : ℝ)]) hlen,
          (initState (effDim 1 true)).counts + 1⟩, none) ∧
      (true = true → appendBias true [(3 : ℝ)] = [(3 : ℝ)] ++ [1]) :=
  accumulate_updates_statistic 1 true (initState (effDim 1 true))
    [Token.num 2, Token.num 3] 2 [(3 : ℝ)] rfl (by decide)

/-- C6: the element-wise merge the reducer applies is associative and
commutative, so the merged global statistic does not depend on the order or
association in which partials are combined. -/
theorem merge_assoc_comm {n : ℕ} (A B C : LRState n) :
    mergeStat (mergeStat A B) C = mergeStat A (mergeStat B C) ∧
    mergeStat A (mergeStat B C) = mergeStat (mergeStat B A) C := by
  constructor <;> refine LRState.ext ?_ ?_ ?_ <;> simp [mergeStat] <;> abel

/-- C7: merging zero contributions leaves the all-zero statistic of the
configured shape; a partition that accumulates zero records emits the
all-zero statistic; and the all-zero statistic is a two-sided identity of
the merge. -/
theorem merge_zero_identity (n D : ℕ) (B : Bool) :
    LinearRegressionTS.reducer_aggregate n [] = initState n ∧
    (initState n).x_t_x = 0 ∧ (initState n).x_t_y = 0 ∧ (initState n).counts = 0 ∧
    accumulateAll (LinearRegressionTS.mapper_lr D B) (initState (effDim D B)) [] =
      (initState (effDim D B), none) ∧
    LinearRegressionTS.mapper_lr_final (initState n) =
      [LinearRegressionTS.MapperValue.xtx 0, LinearRegressionTS.MapperValue.xty 0,
       LinearRegressionTS.MapperValue.cnts 0] ∧
    (∀ S : LRState n, mergeStat S (initState n) = S ∧ mergeStat (initState n) S = S) := by
  refine ⟨rfl, rfl, rfl, rfl, rfl, rfl, fun S => ?_⟩
  constructor <;> refine LRState.ext ?_ ?_ ?_ <;> simp [mergeStat, initState]

/-- C8 (amended): on a record whose feature count differs from the
configured dimension, lr.py raises `DimensionMismatchError` carrying both
values as structured fields, while lr_norm.py raises a plain `ValueError`
whose message merely interpolates the two values. -/
theorem dim_mismatch_error_values (D : ℕ) (B : Bool) (st : LRState (effDim D B))
    (line : List Token) (y : ℝ) (features : List ℝ)
    (hparse : extract_variables line = some (y, features))
    (hne : features.length ≠ D) :
    LinearRegressionTS.mapper_lr D B st line =
      (st, some (TSError.dimMismatch D features.length)) ∧
    TSError.dimensionFields (TSError.dimMismatch D features.length) =
      some (D, features.length) ∧
    LinearRegression.process_line D B st line =
      (st, some (NormError.valueError
        ("Expected dimension " ++ toString D ++ ", but got " ++
          toString features.length))) := by
  refine ⟨?_, rfl, ?_⟩
  · unfold LinearRegressionTS.mapper_lr
    rw [hparse]
    simp [hne]
  · unfold LinearRegression.process_line
    rw [hparse]
    simp [hne]

/-- Witness for C8's amended statement at the specification's own example:
a record with 3 features when `dimension = 8`. -/
theorem dim_mismatch_error_values_witness :
    LinearRegressionTS.mapper_lr 8 true (initState (effDim 8 true))
        [Token.num 0, Token.num 1, Token.num 2, Token.num 3] =
      (initState (effDim 8 true), some (TSError.dimMismatch 8 3)) ∧
    TSError.dimensionFields (TSError.dimMismatch 8 3) = some (8, 3) := by
  have h := dim_mismatch_error_values 8 true (initState (effDim 8 true))
    [Token.num 0, Token.num 1, Token.num 2, Token.num 3] 0 [(1 : ℝ), 2, 3] rfl (by decide)
  exact ⟨h.1, h.2.1⟩

/-- C8 counterexample: at the claim's own example input, the lr_norm entry
point raises a `ValueError` that carries only a message string — no
constructor of its exception carries the expected/observed pair as
structured fields. -/
theorem norm_dim_error_unstructured_cex :
    LinearRegression.process_line 8 true (initState (effDim 8 true))
        [Token.num 0, Token.num 1, Token.num 2, Token.num 3] =
      (initState (effDim 8 true),
        some (NormError.valueError "Expected dimension 8, but got 3")) ∧
    (∀ e : NormError, NormError.dimensionFields e ≠ some (8, 3)) := by
  constructor
  · rfl
  · intro e
    cases e <;> simp [NormError.dimensionFields]

/-- C10: all validation happens before any mutation: a record that fails to
parse or has the wrong dimension leaves the partial statistic exactly as it
was, in both entry points. -/
theorem accumulate_atomic_on_error (D : ℕ) (B : Bool) (st st' : LRState (effDim D B))
    (line : List Token) :
    (∀ e : TSError,
      LinearRegressionTS.mapper_lr D B st line = (st', some e) → st' = st) ∧
    (∀ e : NormError,
      LinearRegression.process_line D B st line = (st', some e) → st' = st) := by
  constructor <;> intro e h
  · unfold LinearRegressionTS.mapper_lr at h
    cases hx : extract_variables line with
    | none =>
      rw [hx] at h
      exact (Prod.mk.injEq _ _ _ _ ▸ h).1.symm
    | some p =>
      obtain ⟨y, features⟩ := p
      rw [hx] at h
      by_cases hd : features.length = D
      · simp [hd] at h
      · simp [hd] at h
        exact h.1.symm
  · unfold LinearRegression.process_line at h
    cases hx : extract_variables line with
    | none =>
      rw [hx] at h
      exact (Prod.mk.injEq _ _ _ _ ▸ h).1.symm
    | some p =>
      obtain ⟨y, features⟩ := p
      rw [hx] at h
      by_cases hd : features.length = D
      · simp [hd] at h
      · simp [hd] at h
        exact h.1.symm

/-- Witness for C10: a dimension-mismatching record leaves a concrete
nonzero statistic untouched. -/
theorem accumulate_atomic_on_error_witness :
    ∃ e : TSError,
      LinearRegressionTS.mapper_lr 1 true (⟨1, 1, 5⟩ : LRState (effDim 1 true))
          [Token.num 4] =
        ((LinearRegressionTS.mapper_lr 1 true ⟨1, 1, 5⟩ [Token.num 4]).1, some e) ∧
      (LinearRegressionTS.mapper_lr 1 true (⟨1, 1, 5⟩ : LRState (effDim 1 true))
          [Token.num 4]).1 = ⟨1, 1, 5⟩ :=
  ⟨TSError.dimMismatch 1 0, rfl,
    (accumulate_atomic_on_error 1 true ⟨1, 1, 5⟩ _ [Token.num 4]).1
      (TSError.dimMismatch 1 0) rfl⟩

/-! ### Solver lemmas: the Cholesky contract and the normal-equations solve -/

/-- `Matrix.diagonal` does not depend on the `DecidableEq` instance. -/
theorem diagonal_decEq_irrel {m : ℕ} (d1 d2 : DecidableEq (Fin m)) (f : Fin m → ℝ) :
    @Matrix.diagonal (Fin m) ℝ d1 _ f = @Matrix.diagonal (Fin m) ℝ d2 _ f :=
  congrArg (fun d : DecidableEq (Fin m) => @Matrix.diagonal (Fin m) ℝ d _ f)
    (Subsingleton.elim d1 d2)

/-- The diagonal entries of the LDL decomposition of a positive-definite
matrix are nonnegative. -/
theorem ldl_diagEntries_nonneg {m : ℕ} {M : Matrix (Fin m) (Fin m) ℝ} (h : M.PosDef)
    (i : Fin m) : 0 ≤ @LDL.diagEntries ℝ _ (Fin m)
      (inferInstanceAs (LinearOrder (Fin m))) (inferInstanceAs (WellFoundedLT (Fin m)))
      (inferInstanceAs (LocallyFiniteOrderBot (Fin m))) M _ h i := by
  have h2 := h.posSemidef.2 (star ((@LDL.lowerInv ℝ _ (Fin m)
    (inferInstanceAs (LinearOrder (Fin m))) (inferInstanceAs (WellFoundedLT (Fin m)))
    (inferInstanceAs (LocallyFiniteOrderBot (Fin m))) M _ h) i))
  simp only [LDL.diagEntries, EuclideanSpace.inner_piLp_equiv_symm]
  exact h2

/-- Every positive-definite real matrix has a lower-triangular invertible
Cholesky factor, obtained by scaling the LDL decomposition by the square
roots of its diagonal. -/
theorem exists_cholesky_of_posDef {m : ℕ} {M : Matrix (Fin m) (Fin m) ℝ} (h : M.PosDef) :
    ∃ L : Matrix (Fin m) (Fin m) ℝ, lowerTriangular L ∧ IsUnit L.det ∧ L * Lᵀ = M := by
  have hld := @LDL.lower_conj_diag ℝ _ (Fin m) (inferInstanceAs (LinearOrder (Fin m)))
    (inferInstanceAs (WellFoundedLT (Fin m)))
    (inferInstanceAs (LocallyFiniteOrderBot (Fin m))) M _ h
  rw [Matrix.conjTranspose_eq_transpose_of_trivial] at hld
  have hdg : @LDL.diag ℝ _ (Fin m) (inferInstanceAs (LinearOrder (Fin m)))
      (inferInstanceAs (WellFoundedLT (Fin m)))
      (inferInstanceAs (LocallyFiniteOrderBot (Fin m))) M _ h =
      Matrix.diagonal (@LDL.diagEntries ℝ _ (Fin m)
        (inferInstanceAs (LinearOrder (Fin m)))
        (inferInstanceAs (WellFoundedLT (Fin m)))
        (inferInstanceAs (LocallyFiniteOrderBot (Fin m))) M _ h) :=
    diagonal_decEq_irrel ((inferInstanceAs (LinearOrder (Fin m))).decidableEq) _ _
  rw [hdg] at hld
  have hdetM : M.det ≠ 0 := h.det_pos.ne'
  have hdets := congrArg Matrix.det hld
  rw [Matrix.det_mul, Matrix.det_mul, Matrix.det_transpose, Matrix.det_diagonal] at hdets
  have hprod : (∏ i : Fin m, @LDL.diagEntries ℝ _ (Fin m)
      (inferInstanceAs (LinearOrder (Fin m)))
      (inferInstanceAs (WellFoundedLT (Fin m)))
      (inferInstanceAs (LocallyFiniteOrderBot (Fin m))) M _ h i) ≠ 0 := by
    intro h0
    rw [h0] at hdets
    simp at hdets
    exact hdetM hdets.symm
  have hdlo : (@LDL.lower ℝ _ (Fin m) (inferInstanceAs (LinearOrder (Fin m)))
      (inferInstanceAs (WellFoundedLT (Fin m)))
      (inferInstanceAs (LocallyFiniteOrderBot (Fin m))) M _ h).det ≠ 0 := by
    intro h0
    rw [h0] at hdets
    simp at hdets
    exact hdetM hdets.symm
  have hdpos : ∀ i : Fin m, 0 < @LDL.diagEntries ℝ _ (Fin m)
      (inferInstanceAs (LinearOrder (Fin m)))
      (inferInstanceAs (WellFoundedLT (Fin m)))
      (inferInstanceAs (LocallyFiniteOrderBot (Fin m))) M _ h i := by
    intro i
    refine lt_of_le_of_ne (ldl_diagEntries_nonneg h i) ?_
    intro h0
    exact (Finset.prod_ne_zero_iff.mp hprod i (Finset.mem_univ i)) h0.symm
  have hloTri : (@LDL.lower ℝ _ (Fin m) (inferInstanceAs (LinearOrder (Fin m)))
      (inferInstanceAs (WellFoundedLT (Fin m)))
      (inferInstanceAs (LocallyFiniteOrderBot (Fin m))) M _ h).BlockTriangular
      OrderDual.toDual := by
    have h1 : (@LDL.lowerInv ℝ _ (Fin m) (inferInstanceAs (LinearOrder (Fin m)))
        (inferInstanceAs (WellFoundedLT (Fin m)))
        (inferInstanceAs (LocallyFiniteOrderBot (Fin m))) M _ h).BlockTriangular
        OrderDual.toDual := by
      intro i j hij
      exact @LDL.lowerInv_triangular ℝ _ (Fin m) (inferInstanceAs (LinearOrder (Fin m)))
        (inferInstanceAs (WellFoundedLT (Fin m)))
        (inferInstanceAs (LocallyFiniteOrderBot (Fin m))) M _ h i j
        (OrderDual.toDual_lt_toDual.mp hij)
    exact @Matrix.blockTriangular_inv_of_blockTriangular (Fin m)ᵒᵈ (Fin m) ℝ _ _
      OrderDual.toDual ((inferInstanceAs (LinearOrder (Fin m))).decidableEq) _ _
      (@LDL.invertibleLowerInv ℝ _ (Fin m) (inferInstanceAs (LinearOrder (Fin m)))
        (inferInstanceAs (WellFoundedLT (Fin m)))
        (inferInstanceAs (LocallyFiniteOrderBot (Fin m))) M _ h) h1
  refine ⟨@LDL.lower ℝ _ (Fin m) (inferInstanceAs (LinearOrder (Fin m)))
      (inferInstanceAs (WellFoundedLT (Fin m)))
      (inferInstanceAs (LocallyFiniteOrderBot (Fin m))) M _ h *
    Matrix.diagonal (fun i => Real.sqrt (@LDL.diagEntries ℝ _ (Fin m)
      (inferInstanceAs (LinearOrder (Fin m)))
      (inferInstanceAs (WellFoundedLT (Fin m)))
      (inferInstanceAs (LocallyFiniteOrderBot (Fin m))) M _ h i)), ?_, ?_, ?_⟩
  · intro i j hij
    exact (hloTri.mul (Matrix.blockTriangular_diagonal _))
      (show OrderDual.toDual j < OrderDual.toDual i from hij)
  · rw [Matrix.det_mul, Matrix.det_diagonal]
    refine isUnit_iff_ne_zero.mpr (mul_ne_zero hdlo ?_)
    refine Finset.prod_ne_zero_iff.mpr (fun i _ => ?_)
    exact (Real.sqrt_pos.mpr (hdpos i)).ne'
  · rw [Matrix.transpose_mul, Matrix.diagonal_transpose, Matrix.mul_assoc,
      ← Matrix.mul_assoc (Matrix.diagonal _), Matrix.diagonal_mul_diagonal]
    have hs : (fun i => Real.sqrt (@LDL.diagEntries ℝ _ (Fin m)
        (inferInstanceAs (LinearOrder (Fin m)))
        (inferInstanceAs (WellFoundedLT (Fin m)))
        (inferInstanceAs (LocallyFiniteOrderBot (Fin m))) M _ h i) *
        Real.sqrt (@LDL.diagEntries ℝ _ (Fin m)
        (inferInstanceAs (LinearOrder (Fin m)))
        (inferInstanceAs (WellFoundedLT (Fin m)))
        (inferInstanceAs (LocallyFiniteOrderBot (Fin m))) M _ h i)) =
        @LDL.diagEntries ℝ _ (Fin m)
        (inferInstanceAs (LinearOrder (Fin m)))
        (inferInstanceAs (WellFoundedLT (Fin m)))
        (inferInstanceAs (LocallyFiniteOrderBot (Fin m))) M _ h := by
      funext i
      exact Real.mul_self_sqrt (ldl_diagEntries_nonneg h i)
    rw [hs, ← Matrix.mul_assoc]
    exact hld

/-- Conversely, a matrix with a lower-triangular invertible Cholesky factor
is positive definite. -/
theorem posDef_of_cholesky {m : ℕ} {M L : Matrix (Fin m) (Fin m) ℝ}
    (hU : IsUnit L.det) (hLM : L * Lᵀ = M) : M.PosDef := by
  constructor
  · show Mᴴ = M
    rw [Matrix.conjTranspose_eq_transpose_of_trivial, ← hLM,
      Matrix.transpose_mul, Matrix.transpose_transpose]
  · intro x hx
    have hw : Lᵀ.mulVec x ≠ 0 := by
      have hinj : Function.Injective (Lᵀ).mulVec :=
        Matrix.mulVec_injective_iff_isUnit.mpr
          ((Matrix.isUnit_iff_isUnit_det _).mpr (by rwa [Matrix.det_transpose]))
      intro h0
      exact hx (hinj (by rw [h0, Matrix.mulVec_zero]))
    have hval : Matrix.dotProduct (star x) (M.mulVec x) =
        Matrix.dotProduct (star (Lᵀ.mulVec x)) (Lᵀ.mulVec x) := by
      rw [← hLM, ← Matrix.mulVec_mulVec, Matrix.dotProduct_mulVec,
        star_trivial, star_trivial, ← Matrix.mulVec_transpose]
    rw [hval]
    exact Matrix.dotProduct_star_self_pos_iff.mpr hw

/-- On a positive-definite input, the modelled `np.linalg.cholesky`
succeeds, returning a lower-triangular invertible factor of its input. -/
theorem npCholesky_spec {m : ℕ} {M : Matrix (Fin m) (Fin m) ℝ} (h : M.PosDef) :
    ∃ L, npCholesky M = some L ∧ lowerTriangular L ∧ IsUnit L.det ∧ L * Lᵀ = M := by
  have hex := exists_cholesky_of_posDef h
  refine ⟨hex.choose, ?_, hex.choose_spec⟩
  simp only [npCholesky]
  rw [dif_pos hex]

/-- The modelled `np.linalg.cholesky` raises exactly on inputs that are not
positive definite. -/
theorem npCholesky_eq_none_iff {m : ℕ} (M : Matrix (Fin m) (Fin m) ℝ) :
    npCholesky M = none ↔ ¬ M.PosDef := by
  constructor
  · intro hnone hPD
    obtain ⟨L, hL, -⟩ := npCholesky_spec hPD
    rw [hL] at hnone
    exact Option.some_ne_none _ hnone
  · intro hPD
    have hnex : ¬ ∃ L : Matrix (Fin m) (Fin m) ℝ,
        lowerTriangular L ∧ IsUnit L.det ∧ L * Lᵀ = M := by
      rintro ⟨L, -, hU, hLM⟩
      exact hPD (posDef_of_cholesky hU hLM)
    simp only [npCholesky]
    rw [dif_neg hnex]

/-- On an invertible input the modelled `np.linalg.solve` returns the
unique solution. -/
theorem npSolve_of_isUnit {m : ℕ} {A : Matrix (Fin m) (Fin m) ℝ} (hA : IsUnit A.det)
    (b : Fin m → ℝ) :
    npSolve A b = some (A⁻¹.mulVec b) ∧ A.mulVec (A⁻¹.mulVec b) = b := by
  constructor
  · simp [npSolve, hA, isUnit_iff_ne_zero.mp hA]
  · rw [Matrix.mulVec_mulVec, Matrix.mul_nonsing_inv _ hA, Matrix.one_mulVec]

/-- On a positive-definite matrix, the Cholesky-then-two-triangular-solves
sequence succeeds, and its result solves the linear system. -/
theorem cholSolve_of_posDef {m : ℕ} {M : Matrix (Fin m) (Fin m) ℝ} (h : M.PosDef)
    (b : Fin m → ℝ) :
    ∃ L z theta, npCholesky M = some L ∧ lowerTriangular L ∧ IsUnit L.det ∧
      L * Lᵀ = M ∧
      npSolve L b = some z ∧ L.mulVec z = b ∧
      npSolve Lᵀ z = some theta ∧ Lᵀ.mulVec theta = z ∧
      cholSolve M b = some theta ∧ M.mulVec theta = b := by
  obtain ⟨L, hL, htri, hU, hLM⟩ := npCholesky_spec h
  have hUt : IsUnit (Lᵀ).det := by rwa [Matrix.det_transpose]
  obtain ⟨hz, hzv⟩ := npSolve_of_isUnit hU b
  obtain ⟨htheta, hthetav⟩ := npSolve_of_isUnit hUt (L⁻¹.mulVec b)
  refine ⟨L, L⁻¹.mulVec b, (Lᵀ)⁻¹.mulVec (L⁻¹.mulVec b), hL, htri, hU, hLM, hz, hzv,
    htheta, hthetav, ?_, ?_⟩
  · simp only [cholSolve, hL, hz, htheta]
  · rw [← hLM, ← Matrix.mulVec_mulVec, hthetav, hzv]

/-- The full solve sequence raises exactly on non-positive-definite input. -/
theorem cholSolve_eq_none_iff {m : ℕ} (M : Matrix (Fin m) (Fin m) ℝ) (b : Fin m → ℝ) :
    cholSolve M b = none ↔ ¬ M.PosDef := by
  constructor
  · intro hnone hPD
    obtain ⟨L, z, theta, -, -, -, -, -, -, -, -, hcs, -⟩ := cholSolve_of_posDef hPD b
    rw [hcs] at hnone
    exact Option.some_ne_none _ hnone
  · intro hPD
    simp only [cholSolve, (npCholesky_eq_none_iff M).mpr hPD]

/-- Solving against the zero right-hand side yields the zero coefficient
vector whenever the matrix is positive definite. -/
theorem cholSolve_zero {m : ℕ} {M : Matrix (Fin m) (Fin m) ℝ} (h : M.PosDef) :
    cholSolve M 0 = some 0 := by
  obtain ⟨L, hL, htri, hU, hLM⟩ := npCholesky_spec h
  have hUt : IsUnit (Lᵀ).det := by rwa [Matrix.det_transpose]
  have h1 : npSolve L 0 = some 0 := by
    rw [(npSolve_of_isUnit hU 0).1, Matrix.mulVec_zero]
  have h2 : npSolve Lᵀ 0 = some 0 := by
    rw [(npSolve_of_isUnit hUt 0).1, Matrix.mulVec_zero]
  simp only [cholSolve, hL, h1, h2]

/-- A positive multiple of the identity is positive definite. -/
theorem posDef_smul_one {m : ℕ} {e : ℝ} (he : 0 < e) :
    (e • (1 : Matrix (Fin m) (Fin m) ℝ)).PosDef := by
  rw [Matrix.smul_one_eq_diagonal]
  exact Matrix.PosDef.diagonal (fun _ => he)

/-- The zero matrix of positive size is not positive definite. -/
theorem not_posDef_zero {m : ℕ} (hm : 0 < m) :
    ¬ (0 : Matrix (Fin m) (Fin m) ℝ).PosDef := by
  intro h
  have hd := h.det_pos
  rw [Matrix.det_zero (Fin.pos_iff_nonempty.mp hm)] at hd
  exact lt_irrefl 0 hd

/-- The literal `1e-10` of lr.py line 10, as an exact rational value. -/
theorem defaultRegularization_eq : defaultRegularization = 1 / 10 ^ 10 := by
  norm_num [defaultRegularization]

/-- The default damping constant is positive. -/
theorem defaultRegularization_pos : 0 < defaultRegularization := by
  norm_num [defaultRegularization]

/-- The lr.py solver in terms of the shared solve sequence: it returns the
damped matrix (having mutated its input in place) and the solution of the
damped system. -/
theorem cholesky_solution_eq_cholSolve {m : ℕ} (M : Matrix (Fin m) (Fin m) ℝ)
    (b : Fin m → ℝ) (reg : ℝ) :
    cholesky_solution_linear_regression M b reg =
      (M + reg • (1 : Matrix (Fin m) (Fin m) ℝ),
        cholSolve (M + reg • (1 : Matrix (Fin m) (Fin m) ℝ)) b) := rfl

/-- The lr_norm.py solver in terms of the shared solve sequence: it factors
the raw `crossProductMatrix`, with no damping. -/
theorem norm_solution_eq_cholSolve {n : ℕ} (st : LRState n) :
    LinearRegression.cholesky_solution_linear_regression st =
      cholSolve st.x_t_x st.x_t_y := rfl

/-! ### Claims about the solver -/

/-- C2 counterexample: on the all-zero global statistic the lr.py solver
(with default damping) succeeds while the lr_norm solver raises — so the
damping is not applied in both entry points. -/
theorem norm_solver_no_damping_cex :
    LinearRegression.cholesky_solution_linear_regression (initState 1) = none ∧
    (cholesky_solution_linear_regression ((initState 1).x_t_x) ((initState 1).x_t_y)
        defaultRegularization).2 = some 0 := by
  have h0 : (initState 1).x_t_x = (0 : Matrix (Fin 1) (Fin 1) ℝ) := rfl
  have hy : (initState 1).x_t_y = (0 : Fin 1 → ℝ) := rfl
  constructor
  · rw [norm_solution_eq_cholSolve, h0]
    exact (cholSolve_eq_none_iff _ _).mpr (not_posDef_zero Nat.one_pos)
  · rw [cholesky_solution_eq_cholSolve]
    have hPD : ((initState 1).x_t_x +
        defaultRegularization • (1 : Matrix (Fin 1) (Fin 1) ℝ)).PosDef := by
      rw [h0, zero_add]
      exact posDef_smul_one defaultRegularization_pos
    show cholSolve _ (initState 1).x_t_y = some 0
    rw [hy]
    exact cholSolve_zero hPD

/-- C2 (amended): the damping `regularization` (default `1e-10`) is added
to the diagonal of `crossProductMatrix` before the Cholesky factorization
in the lr.py entry point; the lr_norm entry point applies no damping and
factors the raw `crossProductMatrix` directly. -/
theorem damping_in_ts_solver_only {m k : ℕ} (M : Matrix (Fin m) (Fin m) ℝ)
    (b : Fin m → ℝ) (reg : ℝ) (st : LRState k) :
    cholesky_solution_linear_regression M b reg =
      (M + reg • (1 : Matrix (Fin m) (Fin m) ℝ),
        cholSolve (M + reg • (1 : Matrix (Fin m) (Fin m) ℝ)) b) ∧
    (∀ i : Fin m, (M + reg • (1 : Matrix (Fin m) (Fin m) ℝ)) i i = M i i + reg) ∧
    defaultRegularization = 1 / 10 ^ 10 ∧
    LinearRegression.cholesky_solution_linear_regression st =
      cholSolve st.x_t_x st.x_t_y := by
  refine ⟨rfl, fun i => ?_, defaultRegularization_eq, rfl⟩
  simp [Matrix.add_apply, Matrix.smul_apply, Matrix.one_apply_eq]

/-- C3 (code bug): the numpy statement `x_t_x += np.eye(m) * regularization`
inside `cholesky_solution_linear_regression` mutates the caller's
`crossProductMatrix` in place: after one call the input matrix has gained
`reg·I`, and a second call on the same arrays factors `M + 2·reg·I` — the
solver is not a pure function of its input statistic. -/
theorem ts_solver_mutates_input :
    (cholesky_solution_linear_regression (1 : Matrix (Fin 1) (Fin 1) ℝ)
        (fun _ => 1) defaultRegularization).1 =
      1 + defaultRegularization • (1 : Matrix (Fin 1) (Fin 1) ℝ) ∧
    1 + defaultRegularization • (1 : Matrix (Fin 1) (Fin 1) ℝ) ≠
      (1 : Matrix (Fin 1) (Fin 1) ℝ) ∧
    (cholesky_solution_linear_regression
        ((cholesky_solution_linear_regression (1 : Matrix (Fin 1) (Fin 1) ℝ)
          (fun _ => 1) defaultRegularization).1)
        (fun _ => 1) defaultRegularization).1 =
      1 + defaultRegularization • (1 : Matrix (Fin 1) (Fin 1) ℝ) +
        defaultRegularization • (1 : Matrix (Fin 1) (Fin 1) ℝ) := by
  refine ⟨rfl, ?_, rfl⟩
  intro hEq
  have h1 := congrFun (congrFun hEq 0) 0
  norm_num [Matrix.add_apply, Matrix.smul_apply, Matrix.one_apply_eq,
    defaultRegularization] at h1

/-- C4 counterexample: at the all-zero statistic (`n = 2`), the damped
matrix `crossProductMatrix + 1e-10·I` is positive definite, and yet the
lr_norm solve cited by the claim raises instead of returning a coefficient
vector — the claimed solve behavior on positive-definite damped matrices
does not hold in that entry point. -/
theorem norm_solve_no_theta_despite_damped_posDef_cex :
    ((initState 2).x_t_x +
      defaultRegularization • (1 : Matrix (Fin 2) (Fin 2) ℝ)).PosDef ∧
    LinearRegression.cholesky_solution_linear_regression (initState 2) = none := by
  have h0 : (initState 2).x_t_x = (0 : Matrix (Fin 2) (Fin 2) ℝ) := rfl
  constructor
  · rw [h0, zero_add]
    exact posDef_smul_one defaultRegularization_pos
  · rw [norm_solution_eq_cholSolve, h0]
    exact (cholSolve_eq_none_iff _ _).mpr (not_posDef_zero (by decide))

/-- C4 (amended): when the matrix a solver factors is positive definite —
the damped `crossProductMatrix + reg·I` for lr.py, the raw
`crossProductMatrix` for lr_norm.py (which applies no damping) — that
solver obtains a lower-triangular Cholesky factor `L` of the matrix it
factors, solves `L·z = crossProductVector` then `Lᵀ·θ = z`, and returns
the `n`-length vector `θ` satisfying that matrix's normal equations. -/
theorem solve_posDef_spec {m k : ℕ} (M : Matrix (Fin m) (Fin m) ℝ) (b : Fin m → ℝ)
    (reg : ℝ) (st : LRState k) :
    ((M + reg • (1 : Matrix (Fin m) (Fin m) ℝ)).PosDef →
      ∃ L z theta,
        npCholesky (M + reg • (1 : Matrix (Fin m) (Fin m) ℝ)) = some L ∧
        lowerTriangular L ∧
        L * Lᵀ = M + reg • (1 : Matrix (Fin m) (Fin m) ℝ) ∧
        npSolve L b = some z ∧ L.mulVec z = b ∧
        npSolve Lᵀ z = some theta ∧ Lᵀ.mulVec theta = z ∧
        (cholesky_solution_linear_regression M b reg).2 = some theta ∧
        (M + reg • (1 : Matrix (Fin m) (Fin m) ℝ)).mulVec theta = b) ∧
    (st.x_t_x.PosDef →
      ∃ L z theta,
        npCholesky st.x_t_x = some L ∧
        lowerTriangular L ∧
        L * Lᵀ = st.x_t_x ∧
        npSolve L st.x_t_y = some z ∧ L.mulVec z = st.x_t_y ∧
        npSolve Lᵀ z = some theta ∧ Lᵀ.mulVec theta = z ∧
        LinearRegression.cholesky_solution_linear_regression st = some theta ∧
        st.x_t_x.mulVec theta = st.x_t_y) := by
  constructor
  · intro h
    obtain ⟨L, z, theta, hL, htri, hU, hLM, hz, hzv, ht, htv, hcs, hMv⟩ :=
      cholSolve_of_posDef h b
    refine ⟨L, z, theta, hL, htri, hLM, hz, hzv, ht, htv, ?_, hMv⟩
    rw [cholesky_solution_eq_cholSolve]
    exact hcs
  · intro h
    obtain ⟨L, z, theta, hL, htri, hU, hLM, hz, hzv, ht, htv, hcs, hMv⟩ :=
      cholSolve_of_posDef h st.x_t_y
    refine ⟨L, z, theta, hL, htri, hLM, hz, hzv, ht, htv, ?_, hMv⟩
    rw [norm_solution_eq_cholSolve]
    exact hcs

/-- Witness for C4's amended statement: the lr.py part at `M = 0`, `b = 0`,
`reg = 1` (damped matrix: the identity), and the lr_norm part at the
statistic whose `crossProductMatrix` is the identity. -/
theorem solve_posDef_spec_witness :
    (∃ L z theta,
      npCholesky ((0 : Matrix (Fin 1) (Fin 1) ℝ) +
        (1 : ℝ) • (1 : Matrix (Fin 1) (Fin 1) ℝ)) = some L ∧
      lowerTriangular L ∧
      L * Lᵀ = (0 : Matrix (Fin 1) (Fin 1) ℝ) +
        (1 : ℝ) • (1 : Matrix (Fin 1) (Fin 1) ℝ) ∧
      npSolve L 0 = some z ∧ L.mulVec z = 0 ∧
      npSolve Lᵀ z = some theta ∧ Lᵀ.mulVec theta = z ∧
      (cholesky_solution_linear_regression (0 : Matrix (Fin 1) (Fin 1) ℝ) 0 1).2 =
        some theta ∧
      ((0 : Matrix (Fin 1) (Fin 1) ℝ) +
        (1 : ℝ) • (1 : Matrix (Fin 1) (Fin 1) ℝ)).mulVec theta = 0) ∧
    (∃ L z theta,
      npCholesky (1 : Matrix (Fin 1) (Fin 1) ℝ) = some L ∧
      lowerTriangular L ∧
      L * Lᵀ = (1 : Matrix (Fin 1) (Fin 1) ℝ) ∧
      npSolve L 0 = some z ∧ L.mulVec z = 0 ∧
      npSolve Lᵀ z = some theta ∧ Lᵀ.mulVec theta = z ∧
      LinearRegression.cholesky_solution_linear_regression
        (⟨1, 0, 0⟩ : LRState 1) = some theta ∧
      (1 : Matrix (Fin 1) (Fin 1) ℝ).mulVec theta = 0) :=
  ⟨(solve_posDef_spec (0 : Matrix (Fin 1) (Fin 1) ℝ) 0 1
      (⟨1, 0, 0⟩ : LRState 1)).1 (by
        rw [zero_add, one_smul]
        exact Matrix.PosDef.one),
   (solve_posDef_spec (0 : Matrix (Fin 1) (Fin 1) ℝ) 0 1
      (⟨1, 0, 0⟩ : LRState 1)).2 Matrix.PosDef.one⟩

/-- C5 counterexample: at the all-zero statistic (`n = 1`) the damped matrix
`crossProductMatrix + 1e-10·I` is positive definite, and yet the lr_norm
solver raises the not-positive-definite error. -/
theorem norm_solver_damped_posDef_cex :
    ((initState 1).x_t_x +
      defaultRegularization • (1 : Matrix (Fin 1) (Fin 1) ℝ)).PosDef ∧
    LinearRegression.cholesky_solution_linear_regression (initState 1) = none := by
  have h0 : (initState 1).x_t_x = (0 : Matrix (Fin 1) (Fin 1) ℝ) := rfl
  constructor
  · rw [h0, zero_add]
    exact posDef_smul_one defaultRegularization_pos
  · rw [norm_solution_eq_cholSolve, h0]
    exact (cholSolve_eq_none_iff _ _).mpr (not_posDef_zero Nat.one_pos)

/-- C5 (amended): each solver raises the not-positive-definite error exactly
when the matrix it factors is not positive definite — the damped matrix in
lr.py, the raw `crossProductMatrix` in lr_norm.py — and the failure
propagates to the caller with no fallback decomposition attempted. -/
theorem solve_failure_iff_not_posDef {m k : ℕ} (M : Matrix (Fin m) (Fin m) ℝ)
    (b : Fin m → ℝ) (reg : ℝ) (st : LRState k) :
    ((cholesky_solution_linear_regression M b reg).2 = none ↔
      ¬ (M + reg • (1 : Matrix (Fin m) (Fin m) ℝ)).PosDef) ∧
    (LinearRegression.cholesky_solution_linear_regression st = none ↔
      ¬ st.x_t_x.PosDef) := by
  constructor
  · rw [cholesky_solution_eq_cholSolve]
    exact cholSolve_eq_none_iff _ b
  · rw [norm_solution_eq_cholSolve]
    exact cholSolve_eq_none_iff _ _

/-- Witness for C5's amended statement at a concrete statistic. -/
theorem solve_failure_iff_not_posDef_witness :
    ((cholesky_solution_linear_regression (0 : Matrix (Fin 1) (Fin 1) ℝ) 0
        defaultRegularization).2 = none ↔
      ¬ ((0 : Matrix (Fin 1) (Fin 1) ℝ) +
          defaultRegularization • (1 : Matrix (Fin 1) (Fin 1) ℝ)).PosDef) ∧
    (LinearRegression.cholesky_solution_linear_regression (initState 1) = none ↔
      ¬ (initState 1).x_t_x.PosDef) :=
  solve_failure_iff_not_posDef 0 0 defaultRegularization (initState 1)

/-- C9 counterexample: on the empty input (zero records), the single-partition
map-reduce job solves the damped all-zero system and returns the zero
coefficient vector, while the file-reader entry point raises — the two entry
points are not behaviorally equivalent. -/
theorem entry_points_disagree_cex :
    ¬ sameOutcome (LinearRegressionTS.runJob 8 true [])
      (LinearRegression.runFile 8 true []) := by
  have hagg := reducer_aggregate_final (initState (effDim 8 true))
  have h0 : (initState (effDim 8 true)).x_t_x =
      (0 : Matrix (Fin (effDim 8 true)) (Fin (effDim 8 true)) ℝ) := rfl
  have hy : (initState (effDim 8 true)).x_t_y = (0 : Fin (effDim 8 true) → ℝ) := rfl
  have hPD : ((initState (effDim 8 true)).x_t_x + defaultRegularization •
      (1 : Matrix (Fin (effDim 8 true)) (Fin (effDim 8 true)) ℝ)).PosDef := by
    rw [h0, zero_add]
    exact posDef_smul_one defaultRegularization_pos
  have hcs : cholSolve ((initState (effDim 8 true)).x_t_x + defaultRegularization •
      (1 : Matrix (Fin (effDim 8 true)) (Fin (effDim 8 true)) ℝ))
      (initState (effDim 8 true)).x_t_y = some 0 := by
    rw [hy]
    exact cholSolve_zero hPD
  have hTS : LinearRegressionTS.runJob 8 true [] = RunOutcome.solved 0 := by
    simp only [LinearRegressionTS.runJob, accumulateAll, LinearRegressionTS.reducer_lr,
      hagg, cholesky_solution_eq_cholSolve]
    rw [hcs]
    rfl
  have hN : LinearRegression.runFile 8 true [] = RunOutcome.solveFailure := by
    simp only [LinearRegression.runFile, accumulateAll, norm_solution_eq_cholSolve]
    rw [h0, (cholSolve_eq_none_iff _ _).mpr (not_posDef_zero (by decide))]
    rfl
  rw [hTS, hN]
  simp [sameOutcome]

/-- C9 (amended): with matching configuration and a single partition, the
two entry points accumulate identically — the same statistic on success, and
rejection at the same record with the corresponding exception on failure —
but the solve phases differ: the map-reduce job factors the damped matrix
`crossProductMatrix + 1e-10·I` while the file reader factors the raw
`crossProductMatrix`, so their outcomes differ where the damping matters. -/
theorem entry_points_agree_up_to_damping (D : ℕ) (B : Bool)
    (lines : List (List Token)) :
    accumulateAll (LinearRegression.process_line D B) (initState (effDim D B)) lines =
      ((accumulateAll (LinearRegressionTS.mapper_lr D B) (initState (effDim D B))
          lines).1,
        ((accumulateAll (LinearRegressionTS.mapper_lr D B) (initState (effDim D B))
          lines).2).map errToNorm) ∧
    (∀ st : LRState (effDim D B),
      accumulateAll (LinearRegressionTS.mapper_lr D B) (initState (effDim D B)) lines =
        (st, none) →
      LinearRegressionTS.runJob D B lines =
        solveOutcome (cholSolve (st.x_t_x + defaultRegularization •
          (1 : Matrix (Fin (effDim D B)) (Fin (effDim D B)) ℝ)) st.x_t_y) ∧
      LinearRegression.runFile D B lines =
        solveOutcome (cholSolve st.x_t_x st.x_t_y)) := by
  refine ⟨accumulateAll_process_eq D B _ lines, fun st hst => ⟨?_, ?_⟩⟩
  · simp only [LinearRegressionTS.runJob, hst, LinearRegressionTS.reducer_lr,
      reducer_aggregate_final, cholesky_solution_eq_cholSolve]
  · have hacc := accumulateAll_process_eq D B (initState (effDim D B)) lines
    rw [hst] at hacc
    simp only [Option.map_none'] at hacc
    simp only [LinearRegression.runFile, hacc, norm_solution_eq_cholSolve]

/-- Witness for C9's amended statement at the empty input. -/
theorem entry_points_agree_up_to_damping_witness :
    LinearRegressionTS.runJob 0 true [] =
      solveOutcome (cholSolve ((initState (effDim 0 true)).x_t_x +
        defaultRegularization •
          (1 : Matrix (Fin (effDim 0 true)) (Fin (effDim 0 true)) ℝ))
        (initState (effDim 0 true)).x_t_y) ∧
    LinearRegression.runFile 0 true [] =
      solveOutcome (cholSolve (initState (effDim 0 true)).x_t_x
        (initState (effDim 0 true)).x_t_y) :=
  (entry_points_agree_up_to_damping 0 true []).2 (initState (effDim 0 true)) rfl
